import Mathlib

/-!
Verification development for the learn2fly core: the genetic-algorithm
engine (src/libs/genetic-algorithm/src/lib.rs) and the feed-forward
network evaluator (src/libs/neural-network/src/lib.rs), shallowly
embedded.

Modelling conventions:
* `f32` values are modelled as rationals (`ℚ`); the claims checked here
  are structural (lengths, which gene is chosen, zero perturbation), so
  no rounding behaviour is involved.
* A pseudo-random generator is a state `Rng`: an underlying stream of
  raw `u64` draws plus a counter of how many draws have been consumed.
  Every primitive (`gen_bool`, `gen`, `gen_range`, the uniform draw of
  `choose_weighted`) consumes draws from this stream exactly as rand
  does, so rng consumption counts are observable.
* Rust panics (`expect("empty population")`, and the error paths of
  `choose_weighted`: empty slice, negative weight, zero total weight)
  are modelled as `none`.
* `Neuron::random` in the Rust source draws from the ambient
  thread-local generator (`rand::thread_rng()`); its state is made
  explicit as an extra argument `g` to the construction functions,
  which the Rust signatures do not expose to the caller.
-/

namespace Learn2Fly

/-- State of a pseudo-random generator: `seed k` is the k-th raw u64
value of the stream (taken mod 2^64), `counter` the number of draws
consumed so far. -/
structure Rng where
  seed : Nat → Nat
  counter : Nat

/-- The next raw u64 value of the stream. -/
def Rng.draw (r : Rng) : Nat := r.seed r.counter % 2 ^ 64

/-- Consume one value of the stream. -/
def Rng.bump (r : Rng) : Rng := ⟨r.seed, r.counter + 1⟩

/-- The next draw scaled to a rational in `[0, 1)` — models sampling a
uniform float from one u64 draw (`rng.gen::<f32>()`, or the uniform
value used by `choose_weighted` after scaling). -/
def Rng.unit (r : Rng) : ℚ := (r.draw : ℚ) / 2 ^ 64

/-- Embeds `rng.gen_bool(p)`: rand's `Bernoulli` compares one u64 draw against
the threshold `p · 2^64`; `p = 1` is rand's `ALWAYS_TRUE` case, which
returns `true` without consuming a draw.  In particular `p = 0` still
consumes one draw and always returns `false`. -/
def genBool (p : ℚ) (r : Rng) : Bool × Rng :=
  if p = 1 then (true, r)
  else (decide ((r.draw : ℚ) < p * 2 ^ 64), r.bump)

/-- Embeds `Chromosome` (genetic-algorithm/src/lib.rs): a flat vector of f32
genes with value semantics. -/
structure Chromosome where
  genes : List ℚ
  deriving DecidableEq

/-- Embeds `Chromosome::len`. -/
def Chromosome.len (c : Chromosome) : Nat := c.genes.length

/-- Indexed read (`Index<usize> for Chromosome`); the claims only use
in-range indices, out-of-range access is a Rust panic. -/
def Chromosome.getD (c : Chromosome) (i : Nat) : ℚ := c.genes.getD i 0

/-- Thread an rng state through an element-wise traversal, left to
right — the shape of Rust's `iter().map(closure using rng).collect()`. -/
def mapRng {α β : Type} (f : Rng → α → β × Rng) : Rng → List α → List β × Rng
  | r, [] => ([], r)
  | r, x :: xs =>
    let y := f r x
    let ys := mapRng f y.2 xs
    (y.1 :: ys.1, ys.2)

/-- The per-position body of `UniformCrossover::crossover`: draw a fair
coin, keep the gene of `parent_a` on heads, of `parent_b` on tails. -/
def pickPair (r : Rng) (p : ℚ × ℚ) : ℚ × Rng :=
  let c := genBool (1 / 2) r
  (if c.1 then p.1 else p.2, c.2)

/-- Embeds `UniformCrossover::crossover`: zip the two parents (`zip` truncates
to the shorter parent) and pick each position by a fair coin. -/
def UniformCrossover.crossover (r : Rng) (parent_a parent_b : Chromosome) :
    Chromosome × Rng :=
  let res := mapRng pickPair r (parent_a.genes.zip parent_b.genes)
  (⟨res.1⟩, res.2)

/-- One gene of `GuassianMutation::mutate`: the sign is drawn
unconditionally (one fair-coin draw); then `gen_bool(chance)` consumes
one more draw to decide whether to add `sign * coeff * U` with `U` one
further uniform draw. -/
def mutateGene (chance coeff : ℚ) (r : Rng) (gene : ℚ) : ℚ × Rng :=
  let s := genBool (1 / 2) r
  let sign : ℚ := if s.1 then -1 else 1
  let hit := genBool chance s.2
  if hit.1 then (gene + sign * coeff * hit.2.unit, hit.2.bump) else (gene, hit.2)

/-- Embeds `GuassianMutation::mutate` over the whole chromosome, in gene
order. -/
def GuassianMutation.mutate (chance coeff : ℚ) (r : Rng) (child : Chromosome) :
    Chromosome × Rng :=
  let res := mapRng (mutateGene chance coeff) r child.genes
  (⟨res.1⟩, res.2)

/-- The walk of rand's `WeightedIndex` sampling: pick the first element
whose weight exceeds the remaining threshold, subtracting as we go. -/
def pickWeighted {I : Type} (fit : I → ℚ) : List I → ℚ → Option I
  | [], _ => none
  | x :: rest, u => if u < fit x then some x else pickWeighted fit rest (u - fit x)

/-- Embeds `PropSelection::select`: `choose_weighted(rng, fitness)` followed by
`expect("empty population")`.  `choose_weighted` fails (a panic through
`expect`, modelled as `none`) on an empty slice, on a negative weight,
or on a zero total weight; otherwise it consumes one uniform draw in
`[0, total)` and picks fitness-proportionately. -/
def PropSelection.select {I : Type} (fit : I → ℚ) (r : Rng) (population : List I) :
    Option (I × Rng) :=
  if population.isEmpty then none
  else if population.any (fun i => decide (fit i < 0)) then none
  else
    let total := (population.map fit).sum
    if total = 0 then none
    else (pickWeighted fit population (r.unit * total)).map (fun x => (x, r.bump))

/-- The `Individual` trait: a fitness score, a read-only chromosome
view, and construction from a chromosome. -/
structure IndividualOps (I : Type) where
  fitness : I → ℚ
  chromosome : I → Chromosome
  create : Chromosome → I

/-- Embeds `GeneticAlgorithm`: one selection strategy plus boxed crossover and
mutation strategies, each modelled by its state-passing function.
Selection is fallible (it contains the only `expect` of the engine). -/
structure GeneticAlgorithm (I : Type) where
  selection_method : Rng → List I → Option (I × Rng)
  crossover_method : Rng → Chromosome → Chromosome → Chromosome × Rng
  mutation_method : Rng → Chromosome → Chromosome × Rng

/-- The body of `evolve`'s `(0..population.len()).map(...)` loop,
producing `n` children in slot order; a failing selection aborts the
whole call (a panic in Rust). -/
def evolveSlots {I : Type} (ga : GeneticAlgorithm I) (ops : IndividualOps I)
    (population : List I) : Nat → Rng → Option (List I × Rng)
  | 0, r => some ([], r)
  | n + 1, r =>
    (ga.selection_method r population).bind fun pa =>
      (ga.selection_method pa.2 population).bind fun pb =>
        let c := ga.crossover_method pb.2 (ops.chromosome pa.1) (ops.chromosome pb.1)
        let m := ga.mutation_method c.2 c.1
        (evolveSlots ga ops population n m.2).map fun rest =>
          (ops.create m.1 :: rest.1, rest.2)

/-- Embeds `GeneticAlgorithm::evolve`: one output slot per input entity. -/
def GeneticAlgorithm.evolve {I : Type} (ga : GeneticAlgorithm I)
    (ops : IndividualOps I) (r : Rng) (population : List I) :
    Option (List I × Rng) :=
  evolveSlots ga ops population population.length r

/-- Embeds `Neuron` (neural-network/src/lib.rs): a weight vector and a bias. -/
structure Neuron where
  weights : List ℚ
  bias : ℚ
  deriving DecidableEq

/-- Embeds `Layer`: an ordered sequence of neurons. -/
structure Layer where
  neurons : List Neuron
  deriving DecidableEq

/-- Embeds `Network`: an ordered sequence of layers. -/
structure Network where
  layers : List Layer
  deriving DecidableEq

/-- The dot product exactly as coded: `zip` (truncating to the shorter
vector), multiply pairwise, sum. -/
def dotZip (input weights : List ℚ) : ℚ :=
  ((input.zip weights).map (fun p => p.1 * p.2)).sum

/-- Embeds `Neuron::prop`: `(self.bias + output).max(0.0)`. -/
def Neuron.prop (n : Neuron) (input : List ℚ) : ℚ :=
  max (n.bias + dotZip input n.weights) 0

/-- Embeds `Layer::prop`: one output per neuron. -/
def Layer.prop (l : Layer) (inputs : List ℚ) : List ℚ :=
  l.neurons.map (fun n => n.prop inputs)

/-- Embeds `Network::prop`: thread the input vector through the layers in
order. -/
def Network.prop (net : Network) (inputs : List ℚ) : List ℚ :=
  net.layers.foldl (fun acc l => l.prop acc) inputs

/-- Embeds `rng.gen_range(-1.0..=1.0)`: one draw mapped affinely into
`[-1, 1]`. -/
def genRangeSym (r : Rng) : ℚ × Rng := (-1 + 2 * r.unit, r.bump)

/-- Embeds `Neuron::random(inputs)`: bias first, then one weight per input.
In the Rust source every draw comes from `rand::thread_rng()` — the
ambient thread-local generator, whose state is the explicit `g` here
because the Rust signature takes no rng argument. -/
def Neuron.random (inputs : Nat) (g : Rng) : Neuron × Rng :=
  let b := genRangeSym g
  let ws := mapRng (fun g _ => genRangeSym g) b.2 (List.range inputs)
  (⟨ws.1, b.1⟩, ws.2)

/-- Embeds `Layer::random(current, next)`: `next` neurons, each with `current`
inputs, drawn from the ambient generator. -/
def Layer.random (current next : Nat) (g : Rng) : Layer × Rng :=
  let ns := mapRng (fun g _ => Neuron.random current g) g (List.range next)
  (⟨ns.1⟩, ns.2)

/-- Embeds `topology.windows(2)`: the consecutive pairs of the topology. -/
def windows2 : List Nat → List (Nat × Nat)
  | a :: b :: rest => (a, b) :: windows2 (b :: rest)
  | _ => []

/-- Embeds `Network::new(topology)`: one layer per consecutive pair of the
topology.  The Rust function's signature is `new(topology: &[usize])` —
no rng parameter; every random draw comes from the ambient thread-local
generator, modelled by threading its state `g` explicitly. -/
def Network.new (topology : List Nat) (g : Rng) : Network :=
  ⟨(mapRng (fun g p => Layer.random p.1 p.2 g) g (windows2 topology)).1⟩

/-- A concrete entity type implementing the `Individual` trait for test
instances: a fitness value paired with a chromosome. -/
structure TestInd where
  fit : ℚ
  chrom : Chromosome
  deriving DecidableEq

/-- The `Individual` implementation of `TestInd`; `create` leaves the
fitness at zero (output entities have no fitness computed yet). -/
def testOps : IndividualOps TestInd :=
  ⟨fun i => i.fit, fun i => i.chrom, fun c => ⟨0, c⟩⟩

/-- The shipped strategy assembly of the repository: fitness-
proportionate selection, uniform crossover, Gaussian-style mutation
with the given parameters. -/
def shippedGA (chance coeff : ℚ) : GeneticAlgorithm TestInd :=
  ⟨PropSelection.select (fun i => i.fit), UniformCrossover.crossover,
   GuassianMutation.mutate chance coeff⟩

/-- An rng state whose stream is constantly zero. -/
def rng0 : Rng := ⟨fun _ => 0, 0⟩

/-- An rng state whose stream is constantly `2^63` (uniform value
one half). -/
def rngHalf : Rng := ⟨fun _ => 2 ^ 63, 0⟩

/-- A one-entity test population member of fitness 1 and genome `[1]`. -/
def ind1 : TestInd := ⟨1, ⟨[1]⟩⟩

/-- The fair-coin value the crossover uses for position `i`: the i-th
draw after the current position of the stream, compared against the
`gen_bool(0.5)` threshold. -/
def coinAt (r : Rng) (i : Nat) : Bool :=
  decide (((r.seed (r.counter + i) % 2 ^ 64 : Nat) : ℚ) < (1 / 2 : ℚ) * 2 ^ 64)

/-- The network of topology `[3, 2]` whose weights and biases are all
zero: one layer of two neurons, each with three zero weights and zero
bias. -/
def zeroNet32 : Network :=
  ⟨[⟨[⟨[0, 0, 0], 0⟩, ⟨[0, 0, 0], 0⟩]⟩]⟩

/-- A state-threaded traversal returns one output per input. -/
theorem mapRng_length {α β : Type} (f : Rng → α → β × Rng) (r : Rng) (xs : List α) :
    (mapRng f r xs).1.length = xs.length := by
  induction xs generalizing r with
  | nil => rfl
  | cons x xs ih => simp [mapRng, ih]

/-- Rust's `gen_bool(0.5)` consumes one draw and compares it against the
half threshold. -/
theorem genBool_half (r : Rng) : genBool (1 / 2) r = (coinAt r 0, r.bump) := by
  norm_num [genBool, coinAt, Rng.draw]

/-- Rust's `gen_bool(0.0)` consumes one draw and is always `false`: the raw
u64 draw is never strictly below the zero threshold. -/
theorem genBool_zero (r : Rng) : genBool 0 r = (false, r.bump) := by
  have h : ¬((r.draw : ℚ) < 0) := not_lt.mpr (by positivity)
  simp [genBool, h]

/-- Shifting the stream by one draw shifts the crossover coins by one
position. -/
theorem coinAt_bump (r : Rng) (i : Nat) : coinAt r.bump i = coinAt r (i + 1) := by
  have h : r.counter + 1 + i = r.counter + (i + 1) := by omega
  simp only [coinAt, Rng.bump, h]

/-- In-range read of a zipped list is the pair of in-range reads. -/
theorem zip_getD (xs ys : List ℚ) (i : Nat) (hx : i < xs.length) (hy : i < ys.length) :
    (xs.zip ys).getD i (0, 0) = (xs.getD i 0, ys.getD i 0) := by
  rw [List.getD_eq_getElem _ _ (by rw [List.length_zip]; omega),
      List.getD_eq_getElem _ _ hx, List.getD_eq_getElem _ _ hy,
      List.getElem_zip]

/-- Core behaviour of the crossover traversal over the zipped parents:
one output and one consumed draw per pair, and position `i` takes the
left component exactly when the i-th coin is heads. -/
theorem mapRng_pickPair_spec (pairs : List (ℚ × ℚ)) : ∀ r : Rng,
    (mapRng pickPair r pairs).1.length = pairs.length ∧
    (mapRng pickPair r pairs).2 = ⟨r.seed, r.counter + pairs.length⟩ ∧
    ∀ i, i < pairs.length →
      (mapRng pickPair r pairs).1.getD i 0
        = (if coinAt r i then (pairs.getD i (0, 0)).1 else (pairs.getD i (0, 0)).2) := by
  induction pairs with
  | nil =>
    intro r
    refine ⟨rfl, by simp [mapRng], ?_⟩
    intro i hi
    simp at hi
  | cons p ps ih =>
    intro r
    have hpick : pickPair r p = ((if coinAt r 0 then p.1 else p.2), r.bump) := by
      rw [pickPair, genBool_half]
    obtain ⟨ih1, ih2, ih3⟩ := ih r.bump
    refine ⟨by simp [mapRng, hpick, ih1], ?_, ?_⟩
    · have hstep : (mapRng pickPair r (p :: ps)).2 = (mapRng pickPair r.bump ps).2 := by
        simp [mapRng, hpick]
      rw [hstep, ih2]
      simp only [Rng.bump, Rng.mk.injEq, List.length_cons, true_and]
      omega
    · intro i hi
      match i with
      | 0 => simp [mapRng, hpick]
      | j + 1 =>
        have hj : j < ps.length := by simpa using hi
        have := ih3 j hj
        simp only [mapRng, hpick, List.getD_cons_succ]
        rw [this, coinAt_bump]

/-- C8: for every rng state, fitness-proportionate selection on an
empty population fails with the documented fatal condition (the
`expect("empty population")` panic, modelled as `none`) instead of
returning an entity. -/
theorem select_empty_fails {I : Type} (fit : I → ℚ) (r : Rng) :
    PropSelection.select fit r ([] : List I) = none := rfl

/-- C1 counterexample: calling `evolve` with an empty population at a
concrete rng state returns normally — `some ([], rng0)` — because the
`(0..population.len())` loop body never runs, so selection and its
precondition check are never reached. -/
theorem evolve_empty_counterexample :
    (shippedGA (1 / 2) (1 / 2)).evolve testOps rng0 ([] : List TestInd)
      = some ([], rng0) := rfl

/-- C1 amended: for every strategy assembly and every rng state,
`evolve` on an empty population returns normally with the empty
population and an untouched rng; no failure signal occurs because
selection is never invoked. -/
theorem evolve_empty_returns_empty {I : Type} (ga : GeneticAlgorithm I)
    (ops : IndividualOps I) (r : Rng) :
    ga.evolve ops r [] = some ([], r) := rfl

/-- C9: `evolve` is deterministic — identical rng state, identical
population, and identical strategy instances produce identical output,
since the embedded engine reads no state besides its arguments. -/
theorem evolve_deterministic {I : Type} (ga : GeneticAlgorithm I)
    (ops : IndividualOps I) (r1 r2 : Rng) (p1 p2 : List I)
    (hr : r1 = r2) (hp : p1 = p2) :
    ga.evolve ops r1 p1 = ga.evolve ops r2 p2 := by
  rw [hr, hp]

/-- Witness for C9 at a concrete seed, population and strategy
assembly. -/
theorem evolve_deterministic_witness :
    (shippedGA 0 1).evolve testOps rng0 [ind1]
      = (shippedGA 0 1).evolve testOps rng0 [ind1] :=
  evolve_deterministic (shippedGA 0 1) testOps rng0 rng0 [ind1] [ind1] rfl rfl

/-- C3: for equal-length parents and every rng state, the child of
uniform crossover has the parents' length, one fresh fair-coin draw is
consumed per position, position `i` is decided by the i-th coin (heads
= parent_a, tails = parent_b), and hence every child gene equals one of
the two parent genes at the same position. -/
theorem crossover_uniform_spec (a b : Chromosome) (r : Rng) (h : a.len = b.len) :
    (UniformCrossover.crossover r a b).1.len = a.len ∧
    (UniformCrossover.crossover r a b).2 = ⟨r.seed, r.counter + a.len⟩ ∧
    ∀ i, i < a.len →
      (UniformCrossover.crossover r a b).1.getD i
          = (if coinAt r i then a.getD i else b.getD i) ∧
      ((UniformCrossover.crossover r a b).1.getD i = a.getD i ∨
       (UniformCrossover.crossover r a b).1.getD i = b.getD i) := by
  have hg : a.genes.length = b.genes.length := h
  have hlen : (a.genes.zip b.genes).length = a.len := by
    rw [List.length_zip]
    show min a.genes.length b.genes.length = a.genes.length
    omega
  obtain ⟨h1, h2, h3⟩ := mapRng_pickPair_spec (a.genes.zip b.genes) r
  refine ⟨?_, ?_, ?_⟩
  · show (mapRng pickPair r (a.genes.zip b.genes)).1.length = a.len
    rw [h1, hlen]
  · show (mapRng pickPair r (a.genes.zip b.genes)).2 = _
    rw [h2, hlen]
  · intro i hi
    have hiz : i < (a.genes.zip b.genes).length := by rw [hlen]; exact hi
    have hz := zip_getD a.genes b.genes i (by exact hi) (by rw [← hg]; exact hi)
    have hif : (UniformCrossover.crossover r a b).1.getD i
        = (if coinAt r i then a.getD i else b.getD i) := by
      show (mapRng pickPair r (a.genes.zip b.genes)).1.getD i 0 = _
      rw [h3 i hiz, hz]
      rfl
    refine ⟨hif, ?_⟩
    cases hc : coinAt r i with
    | true => left; rw [hif, hc]; simp
    | false => right; rw [hif, hc]; simp

/-- Witness for C3: equal-length parents `[1, 2]` and `[3, 4]` at a
concrete rng state. -/
theorem crossover_uniform_spec_witness :
    (UniformCrossover.crossover rng0 ⟨[1, 2]⟩ ⟨[3, 4]⟩).1.len
        = (⟨[1, 2]⟩ : Chromosome).len ∧
    ((UniformCrossover.crossover rng0 ⟨[1, 2]⟩ ⟨[3, 4]⟩).1.getD 0
        = (⟨[1, 2]⟩ : Chromosome).getD 0 ∨
     (UniformCrossover.crossover rng0 ⟨[1, 2]⟩ ⟨[3, 4]⟩).1.getD 0
        = (⟨[3, 4]⟩ : Chromosome).getD 0) :=
  ⟨(crossover_uniform_spec ⟨[1, 2]⟩ ⟨[3, 4]⟩ rng0 rfl).1,
   ((crossover_uniform_spec ⟨[1, 2]⟩ ⟨[3, 4]⟩ rng0 rfl).2.2 0 (by decide)).2⟩

/-- C10: for parents of unequal lengths the crossover does not fail: it
silently truncates to the common prefix, returning a child of length
`min(parent_a.len, parent_b.len)` whose genes are taken positionwise
from one of the two parents, as in the equal-length case. -/
theorem crossover_truncates (a b : Chromosome) (r : Rng) (_h : a.len ≠ b.len) :
    (UniformCrossover.crossover r a b).1.len = min a.len b.len ∧
    ∀ i, i < min a.len b.len →
      (UniformCrossover.crossover r a b).1.getD i = a.getD i ∨
      (UniformCrossover.crossover r a b).1.getD i = b.getD i := by
  have hlen : (a.genes.zip b.genes).length = min a.len b.len := List.length_zip a.genes b.genes
  obtain ⟨h1, _h2, h3⟩ := mapRng_pickPair_spec (a.genes.zip b.genes) r
  refine ⟨?_, ?_⟩
  · show (mapRng pickPair r (a.genes.zip b.genes)).1.length = min a.len b.len
    rw [h1, hlen]
  · intro i hi
    have hiz : i < (a.genes.zip b.genes).length := by rw [hlen]; exact hi
    have hz := zip_getD a.genes b.genes i (by exact lt_of_lt_of_le hi (min_le_left _ _))
      (by exact lt_of_lt_of_le hi (min_le_right _ _))
    have hif : (UniformCrossover.crossover r a b).1.getD i
        = (if coinAt r i then a.getD i else b.getD i) := by
      show (mapRng pickPair r (a.genes.zip b.genes)).1.getD i 0 = _
      rw [h3 i hiz, hz]
      rfl
    cases hc : coinAt r i with
    | true => left; rw [hif, hc]; simp
    | false => right; rw [hif, hc]; simp

/-- Witness for C10: parents `[1, 2]` and `[3]` of unequal lengths at a
concrete rng state; the child has the common-prefix length 1. -/
theorem crossover_truncates_witness :
    (UniformCrossover.crossover rng0 ⟨[1, 2]⟩ ⟨[3]⟩).1.len
        = min (⟨[1, 2]⟩ : Chromosome).len (⟨[3]⟩ : Chromosome).len ∧
    ((UniformCrossover.crossover rng0 ⟨[1, 2]⟩ ⟨[3]⟩).1.getD 0
        = (⟨[1, 2]⟩ : Chromosome).getD 0 ∨
     (UniformCrossover.crossover rng0 ⟨[1, 2]⟩ ⟨[3]⟩).1.getD 0
        = (⟨[3]⟩ : Chromosome).getD 0) :=
  ⟨(crossover_truncates ⟨[1, 2]⟩ ⟨[3]⟩ rng0 (by decide)).1,
   (crossover_truncates ⟨[1, 2]⟩ ⟨[3]⟩ rng0 (by decide)).2 0 (by decide)⟩

/-- Every successful run of the `(0..n)` loop of `evolve` produces
exactly `n` children. -/
theorem evolveSlots_length {I : Type} (ga : GeneticAlgorithm I)
    (ops : IndividualOps I) (pop : List I) :
    ∀ (n : Nat) (r : Rng) (out : List I) (r2 : Rng),
      evolveSlots ga ops pop n r = some (out, r2) → out.length = n := by
  intro n
  induction n with
  | zero =>
    intro r out r2 h
    simp only [evolveSlots, Option.some.injEq, Prod.mk.injEq] at h
    rw [← h.1]
    rfl
  | succ n ih =>
    intro r out r2 h
    simp only [evolveSlots, Option.bind_eq_some, Option.map_eq_some'] at h
    obtain ⟨pa, _hpa, pb, _hpb, rest, hrest, hout⟩ := h
    have hlen := ih _ _ _ hrest
    injection hout with h1 h2
    rw [← h1]
    simp [hlen]

/-- C4: for every strategy assembly, every rng state, and every
non-empty population, when `evolve` returns a population it has the
same length as the input population. -/
theorem evolve_preserves_length {I : Type} (ga : GeneticAlgorithm I)
    (ops : IndividualOps I) (r : Rng) (pop : List I) (out : List I) (r2 : Rng)
    (_hne : pop ≠ []) (h : ga.evolve ops r pop = some (out, r2)) :
    out.length = pop.length :=
  evolveSlots_length ga ops pop pop.length r out r2 h

/-- With `chance = 0`, one gene of the mutation consumes exactly two
draws — the unconditional sign draw and the always-false chance draw —
and leaves the gene unchanged. -/
theorem mutateGene_zero (coeff : ℚ) (r : Rng) (g : ℚ) :
    mutateGene 0 coeff r g = (g, ⟨r.seed, r.counter + 2⟩) := by
  simp only [mutateGene, genBool_half, genBool_zero, Bool.false_eq_true, if_false, Rng.bump]

/-- The whole-genome traversal of the mutation with `chance = 0`:
values unchanged, two draws consumed per gene. -/
theorem mapRng_mutateGene_zero (coeff : ℚ) (gs : List ℚ) : ∀ r : Rng,
    mapRng (mutateGene 0 coeff) r gs = (gs, ⟨r.seed, r.counter + 2 * gs.length⟩) := by
  induction gs with
  | nil => intro r; simp [mapRng]
  | cons g gs ih =>
    intro r
    simp only [mapRng, mutateGene_zero, ih, List.length_cons, Prod.mk.injEq, Rng.mk.injEq,
      eq_self_iff_true, true_and]
    omega

/-- C5 counterexample: on the one-gene genome `[5]` with `chance = 0`
at a concrete rng state, mutation advances the rng counter by 2 (one
sign draw plus one chance draw), not by 1 · genome length as the claim
of exactly one consumed draw per gene would give. -/
theorem mutate_zero_chance_counterexample :
    (GuassianMutation.mutate 0 1 rng0 ⟨[5]⟩).2.counter
      ≠ rng0.counter + (⟨[5]⟩ : Chromosome).len := by
  norm_num [GuassianMutation.mutate, mapRng_mutateGene_zero, Chromosome.len, rng0]

/-- C5 amended: for every genome and rng state, `mutate` with
`chance = 0` leaves every gene unchanged, while the rng is consumed
exactly TWICE per gene — once for the sign draw and once for the
`gen_bool(chance)` decision, which rand performs even for chance 0. -/
theorem mutate_zero_chance (coeff : ℚ) (r : Rng) (c : Chromosome) :
    (GuassianMutation.mutate 0 coeff r c).1 = c ∧
    (GuassianMutation.mutate 0 coeff r c).2.counter = r.counter + 2 * c.len := by
  simp [GuassianMutation.mutate, mapRng_mutateGene_zero, Chromosome.len]

/-- C2 counterexample: network construction is NOT a function of the
topology and a caller-supplied rng — the Rust signature
`Network::new(topology)` takes no rng, and two different states of the
ambient thread-local generator yield different networks for the same
topology. -/
theorem network_new_ambient_counterexample :
    Network.new [1, 1] rng0 ≠ Network.new [1, 1] rngHalf := by
  have h0 : Network.new [1, 1] rng0 = ⟨[⟨[⟨[-1], -1⟩]⟩]⟩ := by
    norm_num [Network.new, windows2, mapRng, Layer.random, Neuron.random,
      genRangeSym, Rng.unit, Rng.draw, Rng.bump, rng0, List.range_succ, List.range_zero]
  have hh : Network.new [1, 1] rngHalf = ⟨[⟨[⟨[0], 0⟩]⟩]⟩ := by
    norm_num [Network.new, windows2, mapRng, Layer.random, Neuron.random,
      genRangeSym, Rng.unit, Rng.draw, Rng.bump, rngHalf, List.range_succ, List.range_zero]
  rw [h0, hh]
  norm_num [Network.mk.injEq, Layer.mk.injEq, Neuron.mk.injEq]

/-- C2 amended: selection, crossover and mutation are functions of the
caller-passed rng handle alone (equal handles give equal results), and
network construction is a function of the topology and the AMBIENT
thread-local generator state — a state the caller of `Network::new`
cannot supply, since the Rust signature has no rng parameter. -/
theorem randomness_sources {I : Type} (fit : I → ℚ) (pop : List I)
    (r1 r2 g1 g2 : Rng) (a b : Chromosome) (chance coeff : ℚ) (topo : List Nat)
    (hr : r1 = r2) (hg : g1 = g2) :
    PropSelection.select fit r1 pop = PropSelection.select fit r2 pop ∧
    UniformCrossover.crossover r1 a b = UniformCrossover.crossover r2 a b ∧
    GuassianMutation.mutate chance coeff r1 a = GuassianMutation.mutate chance coeff r2 a ∧
    Network.new topo g1 = Network.new topo g2 := by
  subst hr
  subst hg
  exact ⟨rfl, rfl, rfl, rfl⟩

/-- Witness for the amended C2 at concrete handles, parents,
parameters and topology. -/
theorem randomness_sources_witness :
    PropSelection.select (fun i : TestInd => i.fit) rng0 [ind1]
        = PropSelection.select (fun i : TestInd => i.fit) rng0 [ind1] ∧
    UniformCrossover.crossover rng0 ⟨[1]⟩ ⟨[2]⟩
        = UniformCrossover.crossover rng0 ⟨[1]⟩ ⟨[2]⟩ ∧
    GuassianMutation.mutate 0 1 rng0 ⟨[1]⟩ = GuassianMutation.mutate 0 1 rng0 ⟨[1]⟩ ∧
    Network.new [1, 1] rngHalf = Network.new [1, 1] rngHalf :=
  randomness_sources (fun i : TestInd => i.fit) [ind1] rng0 rng0 rngHalf rngHalf
    ⟨[1]⟩ ⟨[2]⟩ 0 1 [1, 1] rfl rfl

/-- C6: every neuron computes the rectified-linear activation
`max(0, bias + dot(weights, input))`, and consequently the `[3, 2]`
network with all-zero weights and biases returns `[0, 0]` on every
input of length 3. -/
theorem neuron_relu_spec :
    (∀ (n : Neuron) (input : List ℚ),
        n.prop input = max 0 (n.bias + dotZip input n.weights)) ∧
    (∀ input : List ℚ, input.length = 3 → zeroNet32.prop input = [0, 0]) := by
  constructor
  · intro n input
    rw [Neuron.prop, max_comm]
  · intro input h
    obtain ⟨x, y, z, rfl⟩ := List.length_eq_three.mp h
    norm_num [Network.prop, zeroNet32, Layer.prop, Neuron.prop, dotZip]

/-- Witness for C6 on the concrete input `[1, 2, 3]`. -/
theorem neuron_relu_spec_witness : zeroNet32.prop [1, 2, 3] = [0, 0] :=
  neuron_relu_spec.2 [1, 2, 3] rfl

/-- A layer produces one output per neuron. -/
theorem layer_prop_length (l : Layer) (inputs : List ℚ) :
    (l.prop inputs).length = l.neurons.length := by
  simp [Layer.prop]

/-- Rust's `Layer::random(current, next)` builds exactly `next` neurons. -/
theorem layer_random_count (current next : Nat) (g : Rng) :
    ((Layer.random current next g).1).neurons.length = next := by
  simp [Layer.random, mapRng_length]

/-- Unfolding `Network::new` one topology window at a time. -/
theorem network_new_cons (a b : Nat) (rest : List Nat) (g : Rng) :
    Network.new (a :: b :: rest) g
      = ⟨(Layer.random a b g).1
          :: (Network.new (b :: rest) (Layer.random a b g).2).layers⟩ := by
  simp [Network.new, windows2, mapRng]

/-- Length of the forward pass through a freshly built network: the
output size is the last entry of the topology, whatever the generator
state and the input. -/
theorem network_prop_length_aux :
    ∀ (rest : List Nat) (a b : Nat) (g : Rng) (input : List ℚ),
      ((Network.new (a :: b :: rest) g).prop input).length = (b :: rest).getLastD 0 := by
  intro rest
  induction rest with
  | nil =>
    intro a b g input
    rw [network_new_cons]
    show ((Layer.random a b g).1.prop input).length = b
    rw [layer_prop_length, layer_random_count]
  | cons c rest ih =>
    intro a b g input
    rw [network_new_cons]
    have hstep : (Network.mk ((Layer.random a b g).1
          :: (Network.new (b :: c :: rest) (Layer.random a b g).2).layers)).prop input
        = (Network.new (b :: c :: rest) (Layer.random a b g).2).prop
            ((Layer.random a b g).1.prop input) := rfl
    rw [hstep, ih]
    simp [List.getLastD_cons]

/-- C7: for every topology of length at least 2, every ambient
generator state and every input of length `topology[0]`, the output of
the forward pass has length `topology[last]`. -/
theorem network_evaluate_length (topo : List Nat) (g : Rng) (input : List ℚ)
    (htopo : 2 ≤ topo.length) (hinput : input.length = topo.headD 0) :
    ((Network.new topo g).prop input).length = topo.getLastD 0 := by
  cases topo with
  | nil => simp at htopo
  | cons a t =>
    cases t with
    | nil =>
      simp only [List.length_cons, List.length_nil] at htopo
      omega
    | cons b rest =>
      rw [network_prop_length_aux]
      simp [List.getLastD_cons]

/-- Witness for C7: topology `[3, 2]` with the zero-stream generator
state, on input `[0, 0, 0]`. -/
theorem network_evaluate_length_witness :
    ((Network.new [3, 2] rng0).prop [0, 0, 0]).length = ([3, 2] : List Nat).getLastD 0 :=
  network_evaluate_length [3, 2] rng0 [0, 0, 0] (by decide) rfl

/-- Witness for C4: the shipped strategies with `chance = 0`,
`coeff = 1` on the one-entity population `[ind1]` at the zero-stream
rng: `evolve` returns one entity, preserving the population length. -/
theorem evolve_preserves_length_witness :
    ([(⟨0, ⟨[1]⟩⟩ : TestInd)] : List TestInd).length = ([ind1] : List TestInd).length :=
  evolve_preserves_length (shippedGA 0 1) testOps rng0 [ind1] [⟨0, ⟨[1]⟩⟩] ⟨rng0.seed, 5⟩
    (by simp)
    (by norm_num [GeneticAlgorithm.evolve, evolveSlots, shippedGA, testOps,
      PropSelection.select, pickWeighted, UniformCrossover.crossover, mapRng, pickPair,
      genBool, GuassianMutation.mutate, mutateGene, Rng.unit, Rng.draw, Rng.bump,
      rng0, ind1])

end Learn2Fly
